import Mathlib

/-!
Verification of the RAWG CSV → RDF Turtle converter (src/conversion.py).

Strings are modelled as lists of characters (`Str`).  Missing field values
(pandas NaN; `read_csv` turns empty CSV cells into NaN) are modelled as
`none : Option Str`.  Whitespace is modelled by `Char.isWhitespace`
(space, tab, newline, carriage return), matching Python's `str.strip`
and the regex class `\s` on the ASCII range that the dataset uses.
-/

abbrev Str := List Char

/-- Whitespace test used by `str.strip` and the regex class `\s`. -/
def isSpace (c : Char) : Bool := c.isWhitespace

/-- Remove leading whitespace (left part of Python `str.strip`). -/
def ltrim (s : Str) : Str := s.dropWhile isSpace

/-- Remove trailing whitespace (right part of Python `str.strip`). -/
def rtrim (s : Str) : Str := (s.reverse.dropWhile isSpace).reverse

/-- Python `str.strip`: remove leading and trailing whitespace. -/
def trim (s : Str) : Str := rtrim (ltrim s)

/-- Apply a function to the first element of a list, if any. -/
def modHead (f : α → α) : List α → List α
  | [] => []
  | a :: l => f a :: l

/-- Apply a function to the last element of a list, if any. -/
def modLast (f : α → α) : List α → List α
  | [] => []
  | [a] => [f a]
  | a :: b :: l => a :: modLast f (b :: l)

/-- Python `field_str.split('||')`: split on each non-overlapping
occurrence of the two-character delimiter, scanning left to right. -/
def splitBars : List Char → List (List Char)
  | [] => [[]]
  | [c] => [[c]]
  | c1 :: c2 :: t =>
    if c1 = '|' ∧ c2 = '|' then [] :: splitBars t
    else modHead (fun u => c1 :: u) (splitBars (c2 :: t))

/-- Python `'||' in field_str`. -/
def containsBars : List Char → Bool
  | [] => false
  | [_] => false
  | c1 :: c2 :: t => (c1 == '|' && c2 == '|') || containsBars (c2 :: t)

/-- Embedding of `parse_delimited_field` (src/conversion.py:26-56).
The Python function wraps each value as `{'name': value}`; every consumer
immediately projects `'name'`, so the embedding returns the names
themselves.  The `try`/`except` body performs only total string
operations, so the `except` branch is unreachable. -/
def parse_delimited_field : Option Str → List Str
  | none => []
  | some s =>
    if s = [] ∨ trim s = [] then []
    else
      let fs := trim s
      let values :=
        if containsBars fs then
          ((splitBars fs).map trim).filter (fun v => v ≠ [])
        else
          if fs ≠ [] then [fs] else []
      values.filter (fun v => v ≠ [])

/-- Behaviour of `parseDelimited` as claim C2 states it: split raw values
containing the delimiter on every occurrence of it, trim each segment,
drop segments that are empty after trimming, keep order; a value without
the delimiter yields its trimmed form unless that is empty; missing,
empty, or whitespace-only input yields the empty sequence. -/
def parseDelimitedSpec : Option Str → List Str
  | none => []
  | some s =>
    if containsBars s then
      ((splitBars s).map trim).filter (fun v => v ≠ [])
    else
      if trim s = [] then [] else [trim s]

/-- Regex class `\w` (modelled on the ASCII range the dataset uses):
letters, digits, underscore. -/
def isWordChar (c : Char) : Bool := c.isAlphanum || c == '_'

/-- Characters kept by `re.sub(r'[^\w\s-]', '', text)`: word characters,
whitespace, and the hyphen. -/
def keepChar (c : Char) : Bool := isWordChar c || c.isWhitespace || c == '-'

/-- Python `re.sub(r'\s+', '_', s)`: each maximal run of whitespace is
replaced by a single underscore.  The Boolean argument records whether
the scan is currently inside a whitespace run. -/
def subWsAux : Bool → Str → Str
  | _, [] => []
  | inRun, c :: t =>
    if isSpace c then
      if inRun then subWsAux true t else '_' :: subWsAux true t
    else c :: subWsAux false t

def subWsUnderscore (s : Str) : Str := subWsAux false s

/-- Whitespace-run replacement exactly as claim C3 words it, written
independently of the scanner above: a whitespace character opens a run,
the run (the character together with the whitespace that follows it)
becomes one underscore, and the scan resumes after the run. -/
def collapseRuns : Str → Str
  | [] => []
  | c :: t =>
    if isSpace c then '_' :: collapseRuns (t.dropWhile isSpace)
    else c :: collapseRuns t
termination_by s => s.length
decreasing_by
  · have h := (List.dropWhile_sublist isSpace (l := t)).length_le
    simp only [List.length_cons]
    omega
  · simp only [List.length_cons]
    omega

/-- Characters `urllib.parse.quote` leaves unescaped with the default
`safe='/'`. -/
def quoteSafe (c : Char) : Bool :=
  c.isAlphanum || c == '_' || c == '.' || c == '-' || c == '~' || c == '/'

def hexDigitChar (n : Nat) : Char :=
  if n < 10 then Char.ofNat (48 + n) else Char.ofNat (55 + n)

/-- `urllib.parse.quote` on the ASCII range (the only characters that can
reach it here): keep safe characters, percent-encode the rest as an
uppercase hex byte. -/
def pquote (s : Str) : Str :=
  s.flatMap (fun c =>
    if quoteSafe c then [c]
    else ['%', hexDigitChar (c.toNat / 16 % 16), hexDigitChar (c.toNat % 16)])

/-- Embedding of `clean_uri_string` (src/conversion.py:8-15). -/
def clean_uri_string : Option Str → Option Str
  | none => none
  | some s =>
    if s = [] then none
    else some (pquote (subWsUnderscore (trim (s.filter keepChar))))

/-- The cleaning step exactly as claim C3 words it: keep only letters,
digits, underscores, and whitespace (no hyphen). -/
def keepCharClaim (c : Char) : Bool :=
  c.isAlpha || c.isDigit || c == '_' || c.isWhitespace

/-- `cleanForUri` as claim C3 describes it: strip, trim, collapse each
whitespace run to one underscore, percent-encode. -/
def cleanForUriClaim : Option Str → Option Str
  | none => none
  | some s =>
    if s = [] then none
    else some (pquote (collapseRuns (trim (s.filter keepCharClaim))))

/-- The claim's keep-set amended with the hyphen, which the source regex
`[^\w\s-]` also preserves. -/
def keepCharAmended (c : Char) : Bool :=
  c.isAlpha || c.isDigit || c == '_' || c == '-' || c.isWhitespace

/-- `cleanForUri` as amended: hyphens are kept as well; the rest of the
pipeline is unchanged from the claim's wording. -/
def cleanForUriAmended : Option Str → Option Str
  | none => none
  | some s =>
    if s = [] then none
    else some (pquote (collapseRuns (trim (s.filter keepCharAmended))))

/-- Escaping performed by `clean_literal_string`, character by character:
the three sequential `str.replace` calls act independently on each
character because no replacement string contains a later pattern. -/
def escChar (c : Char) : Str :=
  if c = '"' then ['\\', '"']
  else if c = '\n' then ['\\', 'n']
  else if c = '\r' then ['\\', 'r']
  else [c]

/-- Python `s.replace(pat, rep)` for a single-character pattern. -/
def replaceChar (pat : Char) (rep : Str) (s : Str) : Str :=
  s.flatMap (fun x => if x = pat then rep else [x])

/-- Embedding of `clean_literal_string` (src/conversion.py:18-23). -/
def clean_literal_string : Option Str → Option Str
  | none => none
  | some s =>
    if s = [] then none
    else
      some (replaceChar '\r' ['\\', 'r']
        (replaceChar '\n' ['\\', 'n'] (replaceChar '"' ['\\', '"'] s)))

/-- Inner scan for the escaped-quotes predicate: the first argument is
the previous character of the string. -/
def qeAux : Char → Str → Bool
  | _, [] => true
  | prev, c :: t => (c != '"' || prev == '\\') && qeAux c t

/-- Every double quote in the string is immediately preceded by a
backslash (the property claim C10 states for escaped literals). -/
def quotesEscaped (s : Str) : Bool :=
  match s with
  | [] => true
  | c :: t => (c != '"') && qeAux c t

/-- Numeric value of an ASCII digit character. -/
def dv (c : Char) : Nat := c.toNat - 48

/-- CPython `_strptime` directive `%m` followed by the literal dash of
the format: the regex alternation matches a two-digit month `01`-`12`
when the dash follows, otherwise backtracks to a one-digit month
`1`-`9` followed by the dash; returns the month value and the input
remaining after the dash. -/
def parseMonth : Str → Option (Nat × Str)
  | a :: b :: rest =>
    if a.isDigit then
      if b.isDigit then
        match rest with
        | '-' :: rest2 =>
          if 1 ≤ 10 * dv a + dv b ∧ 10 * dv a + dv b ≤ 12 then
            some (10 * dv a + dv b, rest2)
          else none
        | _ => none
      else
        if b = '-' then
          if 1 ≤ dv a then some (dv a, rest) else none
        else none
    else none
  | _ => none

/-- CPython `_strptime` directive `%d` at the end of the format: a
two-digit day `01`-`31` consuming the whole remaining input, else a
one-digit day `1`-`9` consuming the whole remaining input. -/
def parseDay : Str → Option Nat
  | [a] => if a.isDigit ∧ 1 ≤ dv a then some (dv a) else none
  | [a, b] =>
    if a.isDigit ∧ b.isDigit ∧ 1 ≤ 10 * dv a + dv b ∧ 10 * dv a + dv b ≤ 31 then
      some (10 * dv a + dv b)
    else none
  | _ => none

def isLeap (y : Nat) : Bool := decide (y % 4 = 0 ∧ (¬ y % 100 = 0 ∨ y % 400 = 0))

def daysInMonth (y m : Nat) : Nat :=
  if m = 2 then (if isLeap y then 29 else 28)
  else if m = 4 ∨ m = 6 ∨ m = 9 ∨ m = 11 then 30
  else 31

def y4 (c1 c2 c3 c4 : Char) : Nat :=
  1000 * dv c1 + 100 * dv c2 + 10 * dv c3 + dv c4

/-- CPython `datetime.strptime(s, '%Y-%m-%d')` up to the `datetime`
range checks: exactly four year digits, a dash, a one- or two-digit
month, a dash, and a one- or two-digit day consuming the whole string. -/
def strptimeYmd : Str → Option (Nat × Nat × Nat)
  | c1 :: c2 :: c3 :: c4 :: c5 :: rest =>
    if c1.isDigit ∧ c2.isDigit ∧ c3.isDigit ∧ c4.isDigit ∧ c5 = '-' then
      match parseMonth rest with
      | some (m, rest2) =>
        match parseDay rest2 with
        | some d => some (y4 c1 c2 c3 c4, m, d)
        | none => none
      | none => none
    else none
  | _ => none

/-- Embedding of `format_date` (src/conversion.py:59-68): on `strptime`
success with a `datetime`-valid date the original string is returned;
missing, empty, or unparseable input yields none. -/
def format_date : Option Str → Option Str
  | none => none
  | some s =>
    if s = [] then none
    else
      match strptimeYmd s with
      | some (y, m, d) =>
        if 1 ≤ y ∧ d ≤ daysInMonth y m then some s else none
      | none => none

def ymdOk (y m d : Nat) : Bool :=
  decide (1 ≤ y ∧ 1 ≤ m ∧ m ≤ 12 ∧ 1 ≤ d ∧ d ≤ daysInMonth y m)

/-- Strict `YYYY-MM-DD` shape as claim C6 words it: four year digits,
two month digits, two day digits, representing a valid calendar date. -/
def strictYmdForm : Str → Bool
  | [a, b, c, d, '-', e, f, '-', g, h] =>
    a.isDigit && b.isDigit && c.isDigit && d.isDigit && e.isDigit &&
      f.isDigit && g.isDigit && h.isDigit &&
      ymdOk (y4 a b c d) (10 * dv e + dv f) (10 * dv g + dv h)
  | _ => false

/-- `formatDate` as claim C6 describes it. -/
def formatDateClaim : Option Str → Option Str
  | none => none
  | some s => if strictYmdForm s then some s else none

/-- Digit-string value, most significant digit first. -/
def natVal (l : Str) : Nat := l.foldl (fun acc c => 10 * acc + dv c) 0

/-- Dates accepted by format `%Y-%m-%d` as the amended claim C6
describes them: four year digits, a dash, one or two month digits, a
dash, one or two day digits; month between 1 and 12, day valid for the
month, year at least 1. -/
def FlexYmd (s : Str) : Prop :=
  ∃ ys ms ds : Str,
    s = ys ++ '-' :: (ms ++ '-' :: ds) ∧
    (∀ c ∈ ys, c.isDigit = true) ∧ (∀ c ∈ ms, c.isDigit = true) ∧
    (∀ c ∈ ds, c.isDigit = true) ∧
    ys.length = 4 ∧ (ms.length = 1 ∨ ms.length = 2) ∧
    (ds.length = 1 ∨ ds.length = 2) ∧
    1 ≤ natVal ys ∧ 1 ≤ natVal ms ∧ natVal ms ≤ 12 ∧
    1 ≤ natVal ds ∧ natVal ds ≤ daysInMonth (natVal ys) (natVal ms)

/-- Sign handling of Python `float(s)`: an optional leading sign. -/
def splitSign : Str → (Bool × Str)
  | '-' :: r => (true, r)
  | '+' :: r => (false, r)
  | r => (false, r)

def intOfParts (neg : Bool) (n : Nat) : Int :=
  if neg then -(n : Int) else (n : Int)

/-- Python `int(float(s))` for plain decimal strings (optional sign,
integer digits, optional dot and fraction digits): the value truncated
toward zero.  Strings CPython cannot parse yield none, where the source
would raise an uncaught `ValueError`; scientific notation is outside
the model since the metric columns only hold plain decimals. -/
def truncFloatStr (s : Str) : Option Int :=
  let sr := splitSign s
  let ip := sr.2.takeWhile Char.isDigit
  let rest := sr.2.dropWhile Char.isDigit
  match rest with
  | [] => if ip = [] then none else some (intOfParts sr.1 (natVal ip))
  | '.' :: fp =>
    if fp.all Char.isDigit ∧ (ip ≠ [] ∨ fp ≠ []) then
      some (intOfParts sr.1 (natVal ip))
    else none
  | _ => none

def digitChar (n : Nat) : Char := Char.ofNat (48 + n)

def natStrAux : Nat → Nat → Str
  | 0, _ => []
  | fuel + 1, n =>
    if n < 10 then [digitChar n]
    else natStrAux fuel (n / 10) ++ [digitChar (n % 10)]

/-- Decimal rendering of a natural number. -/
def natStr (n : Nat) : Str := natStrAux (n + 1) n

/-- Decimal rendering of an integer (Python `f"{int(...)}"`). -/
def intStr (i : Int) : Str :=
  if i < 0 then '-' :: natStr i.natAbs else natStr i.natAbs

/-- The two literal datatypes of the fixed per-field metric table. -/
inductive DType
  | integer
  | decimal
deriving DecidableEq

/-- One numeric metric of the table (src/conversion.py:234-240): the
rendered object literal, none when the guard `not pd.isna(value) and
str(value) != "" and str(value) != "0.0"` suppresses the assertion,
error when `int(float(value))` would raise. -/
def emitMetricObj (dt : DType) (v : Option Str) : Except Unit (Option Str) :=
  match v with
  | none => Except.ok none
  | some s =>
    if s = [] ∨ s = "0.0".data then Except.ok none
    else
      match dt with
      | DType.decimal => Except.ok (some s)
      | DType.integer =>
        match truncFloatStr s with
        | some n => Except.ok (some (intStr n))
        | none => Except.error ()

/-- Python `str.lower` on the ASCII range. -/
def lowerStr (s : Str) : Str := s.map Char.toLower

/-- Boolean flag emission (src/conversion.py:243-245): whenever the
field is present, emit `true` exactly when the lower-cased raw value is
`true` or `1`, else `false`; emit nothing when it is absent. -/
def emitTba (v : Option Str) : Option Str :=
  match v with
  | none => none
  | some s =>
    some (if lowerStr s ∈ (["true".data, "1".data] : List Str) then "true".data
      else "false".data)

/-- One CSV record with the columns the converter reads.  `read_csv`
turns empty cells into NaN, so a missing value and an empty cell both
appear as `none`; string values are the `str(...)` forms the source
manipulates. -/
structure Row where
  id : Option Str := none
  name : Option Str := none
  slug : Option Str := none
  released : Option Str := none
  website : Option Str := none
  metacritic : Option Str := none
  rating : Option Str := none
  playtime : Option Str := none
  achievements_count : Option Str := none
  ratings_count : Option Str := none
  suggestions_count : Option Str := none
  game_series_count : Option Str := none
  reviews_count : Option Str := none
  added_status_yet : Option Str := none
  added_status_owned : Option Str := none
  added_status_beaten : Option Str := none
  added_status_toplay : Option Str := none
  added_status_dropped : Option Str := none
  added_status_playing : Option Str := none
  tba : Option Str := none
  updated : Option Str := none
  platforms : Option Str := none
  developers : Option Str := none
  publishers : Option Str := none
  genres : Option Str := none
  esrb_rating : Option Str := none
deriving DecidableEq

/-- A row with no fields at all (every value missing). -/
def rowA : Row := {}

/-- A row with an identifier and one platform. -/
def rowB : Row := { id := some "2".data, platforms := some "PC".data }

/-- Loader (src/conversion.py:82-85): `df = pd.read_csv(...)` followed
by `if limit: df = df.head(limit)`.  Python truthiness makes a zero
limit behave as if no limit had been given. -/
def loadRows (rows : List Row) (limit : Option Nat) : List Row :=
  match limit with
  | none => rows
  | some n => if n ≠ 0 then rows.take n else rows

/-- The fixed metric table `numeric_props` (src/conversion.py:217-232):
RDF predicate, literal datatype, and the column read from the row. -/
def numeric_props : List (Str × DType × (Row → Option Str)) :=
  [("schema:ratingValue".data, DType.decimal, Row.metacritic),
   ("schema:bestRating".data, DType.decimal, Row.rating),
   ("vgo:averagePlayTime".data, DType.integer, Row.playtime),
   ("rawg:achievementCount".data, DType.integer, Row.achievements_count),
   ("schema:ratingCount".data, DType.integer, Row.ratings_count),
   ("rawg:suggestionCount".data, DType.integer, Row.suggestions_count),
   ("rawg:gameSeriesCount".data, DType.integer, Row.game_series_count),
   ("schema:reviewCount".data, DType.integer, Row.reviews_count),
   ("rawg:addedStatusYet".data, DType.integer, Row.added_status_yet),
   ("rawg:addedStatusOwned".data, DType.integer, Row.added_status_owned),
   ("rawg:addedStatusBeaten".data, DType.integer, Row.added_status_beaten),
   ("rawg:addedStatusToPlay".data, DType.integer, Row.added_status_toplay),
   ("rawg:addedStatusDropped".data, DType.integer, Row.added_status_dropped),
   ("rawg:addedStatusPlaying".data, DType.integer, Row.added_status_playing)]

/-- Rendered segment for one emitted metric. -/
def metricLine (prop lit : Str) (dt : DType) : Str :=
  "    ".data ++ prop ++ " \"".data ++ lit ++
    (match dt with
     | DType.integer => "\"^^xsd:integer".data
     | DType.decimal => "\"^^xsd:decimal".data)

/-- Entity-reference subjects a game block emits for one multi-value
field: parse the field, clean each name, drop names whose cleaning
yields none (src/conversion.py:254-283). -/
def refsOf (getF : Row → Option Str) (pre : Str) (row : Row) : List Str :=
  (parse_delimited_field (getF row)).filterMap
    (fun n => (clean_uri_string (some n)).map (fun c => pre ++ c))

/-- The single-value ESRB name of a row: present and non-empty values,
stripped (src/conversion.py:134-137 and 286-290). -/
def esrbNames (row : Row) : List Str :=
  match row.esrb_rating with
  | none => []
  | some s => if s = [] then [] else [trim s]

/-- ESRB reference subjects of a game block. -/
def refsEsrb (row : Row) : List Str :=
  (esrbNames row).filterMap
    (fun n => (clean_uri_string (some n)).map (fun c => ":esrb_".data ++ c))

/-- All entity-reference subjects one game block emits, in order. -/
def gameRefs (row : Row) : List Str :=
  refsOf Row.platforms ":platform_".data row ++
  refsOf Row.developers ":developer_".data row ++
  refsOf Row.publishers ":publisher_".data row ++
  refsOf Row.genres ":genre_".data row ++
  refsEsrb row

/-- First pass of the converter for one multi-value category
(src/conversion.py:109-132): every parsed name of every row, collected
into a set.  Python's `set` is modelled as a duplicate-free list; only
membership matters downstream. -/
def fieldNames (getF : Row → Option Str) (rows : List Row) : List Str :=
  (rows.flatMap (fun r => parse_delimited_field (getF r))).dedup

/-- First pass for the ESRB category (src/conversion.py:134-137). -/
def esrbSet (rows : List Row) : List Str := (rows.flatMap esrbNames).dedup

/-- One entity declaration block (src/conversion.py:142-180): subject
from the fixed per-category handle plus the cleaned identifier, an
rdf:type assertion, and a name label; skipped when cleaning yields
none. -/
def entityBlock (pre ty : Str) (n : Str) : List Str :=
  match clean_uri_string (some n) with
  | some c =>
    [pre ++ c ++ " rdf:type ".data ++ ty ++ " ;".data,
     "    schema:name \"".data ++ (clean_literal_string (some n)).getD [] ++
       "\" .".data,
     []]
  | none => []

/-- One category of the entity phase: a comment header, then one block
per collected unique name. -/
def catSection (header pre ty : Str) (names : List Str) : List Str :=
  header :: names.flatMap (entityBlock pre ty)

/-- The whole entity phase, all five categories in source order. -/
def entitySection (rows : List Row) : List Str :=
  catSection "# Plataformas".data ":platform_".data "schema:VideoGamePlatform".data
      (fieldNames Row.platforms rows) ++
  catSection "# Desarrolladores".data ":developer_".data "schema:Organization".data
      (fieldNames Row.developers rows) ++
  catSection "# Editores".data ":publisher_".data "schema:Organization".data
      (fieldNames Row.publishers rows) ++
  catSection "# Géneros".data ":genre_".data "schema:Genre".data
      (fieldNames Row.genres rows) ++
  catSection "# Ratings ESRB".data ":esrb_".data "schema:GameRating".data
      (esrbSet rows)

/-- One game block (src/conversion.py:186-292) as the list of emitted
segments: skipped entirely when the identifier is missing; otherwise the
subject line followed by each guarded assertion in source order and the
closing dot.  The error case propagates the uncaught `ValueError` of
`int(float(...))` on an unconvertible metric string. -/
def gameBlock (row : Row) : Except Unit (List Str) :=
  match row.id with
  | none => Except.ok []
  | some gid => do
    let metricObjs ← numeric_props.mapM (fun p =>
      (emitMetricObj p.2.1 (p.2.2 row)).map (fun ob =>
        match ob with
        | some lit => [metricLine p.1 lit p.2.1]
        | none => []))
    Except.ok
      ([":game_".data ++ gid ++ " rdf:type schema:VideoGame".data] ++
       ["    dcterms:identifier \"".data ++ gid ++ "\"".data] ++
       (match row.name with
        | none => []
        | some s =>
          if s = [] then []
          else ["    schema:name \"".data ++
            (clean_literal_string (some s)).getD [] ++ "\"".data]) ++
       (match row.slug with
        | none => []
        | some s =>
          if s = [] then []
          else ["    schema:alternateName \"".data ++
            (clean_literal_string (some s)).getD [] ++ "\"".data]) ++
       (match format_date row.released with
        | some d => ["    schema:datePublished \"".data ++ d ++ "\"^^xsd:date".data]
        | none => []) ++
       (match row.website with
        | none => []
        | some s =>
          if s = [] then []
          else ["    schema:url \"".data ++ s ++ "\"^^xsd:anyURI".data]) ++
       metricObjs.flatten ++
       (match emitTba row.tba with
        | some b => ["    rawg:toBeAnnounced \"".data ++ b ++ "\"^^xsd:boolean".data]
        | none => []) ++
       (match row.updated with
        | none => []
        | some s =>
          if s = [] then []
          else ["    dcterms:modified \"".data ++ s ++ "\"^^xsd:dateTime".data]) ++
       (refsOf Row.platforms ":platform_".data row).map
         (fun u => "    schema:gamePlatform ".data ++ u) ++
       (refsOf Row.developers ":developer_".data row).map
         (fun u => "    schema:developer ".data ++ u) ++
       (refsOf Row.publishers ":publisher_".data row).map
         (fun u => "    schema:publisher ".data ++ u) ++
       (refsOf Row.genres ":genre_".data row).map
         (fun u => "    schema:genre ".data ++ u) ++
       (refsEsrb row).map (fun u => "    schema:contentRating ".data ++ u) ++
       [" .".data])

/-- The game phase: blocks of all rows in source order; an error in any
block aborts the run as the uncaught Python exception would. -/
def gameSection : List Row → Except Unit (List Str)
  | [] => Except.ok []
  | r :: rs => do
    let b ← gameBlock r
    let rest ← gameSection rs
    Except.ok (b ++ rest)

/-- The fixed preamble (src/conversion.py:88-98), one line per entry. -/
def preambleLines : List Str :=
  ["@prefix : <http://www.semanticweb.org/kevin/ontologies/2025/7/VideoGames#> .".data,
   "@prefix dcterms: <http://purl.org/dc/terms/> .".data,
   "@prefix owl: <http://www.w3.org/2002/07/owl#> .".data,
   "@prefix rdf: <http://www.w3.org/1999/02/22-rdf-syntax-ns#> .".data,
   "@prefix rdfs: <http://www.w3.org/2000/01/rdf-schema#> .".data,
   "@prefix xsd: <http://www.w3.org/2001/XMLSchema#> .".data,
   "@prefix schema: <http://schema.org/> .".data,
   "@prefix rawg: <http://rawg.io/ontology#> .".data,
   "@prefix vgo: <http://purl.org/net/VideoGameOntology#> .".data,
   []]

/-- The full output for an already-loaded row list: preamble, entity
phase, then the game phase behind its comment header. -/
def ttlLines (rows : List Row) : Except Unit (List Str) :=
  (gameSection rows).map
    (fun gs => preambleLines ++ entitySection rows ++ ("# Videojuegos".data :: gs))

/-- `generate_ttl_from_rawg_dataset` (src/conversion.py:71-296) up to
writing the file: load with the optional limit, then serialize. -/
def generateTtl (rows : List Row) (limit : Option Nat) : Except Unit (List Str) :=
  ttlLines (loadRows rows limit)

theorem modHead_modHead (f g : α → α) (l : List α) :
    modHead f (modHead g l) = modHead (fun a => f (g a)) l := by
  cases l <;> rfl

theorem modHead_eq_nil_iff (f : α → α) (l : List α) : modHead f l = [] ↔ l = [] := by
  cases l <;> simp [modHead]

theorem modLast_cons (f : α → α) (a : α) (l : List α) (h : l ≠ []) :
    modLast f (a :: l) = a :: modLast f l := by
  cases l with
  | nil => exact absurd rfl h
  | cons b l' => rfl

theorem modHead_modLast (f g : α → α) (l : List α) (h : ∀ a, f (g a) = g (f a)) :
    modHead f (modLast g l) = modLast g (modHead f l) := by
  cases l with
  | nil => rfl
  | cons a l' =>
    cases l' with
    | nil => simp [modHead, modLast, h a]
    | cons b l'' => simp [modHead, modLast]

theorem splitBars_ne_nil (s : List Char) : splitBars s ≠ [] := by
  induction s using splitBars.induct with
  | case1 => simp [splitBars]
  | case2 c => simp [splitBars]
  | case3 c1 c2 t h ih => simp [splitBars, h]
  | case4 c1 c2 t h ih =>
    simp only [splitBars, if_neg h]
    simpa [modHead_eq_nil_iff] using ih

theorem splitBars_cons_ne (c : Char) (hc : c ≠ '|') (t : List Char) :
    splitBars (c :: t) = modHead (fun u => c :: u) (splitBars t) := by
  cases t with
  | nil => simp [splitBars, modHead]
  | cons c2 t' =>
    simp only [splitBars]
    rw [if_neg (by rintro ⟨h1, _⟩; exact hc h1)]

theorem splitBars_noBar (w : List Char) : (∀ c ∈ w, c ≠ '|') → splitBars w = [w] := by
  induction w using splitBars.induct with
  | case1 => intro _; rfl
  | case2 c => intro _; rfl
  | case3 c1 c2 t h ih =>
    intro hw
    exact absurd h.1 (hw c1 (by simp))
  | case4 c1 c2 t h ih =>
    intro hw
    simp only [splitBars, if_neg h]
    rw [ih (fun c hmem => hw c (List.mem_cons_of_mem _ hmem))]
    rfl

theorem splitBars_append_left (w : List Char) (s : List Char)
    (hw : ∀ c ∈ w, c ≠ '|') :
    splitBars (w ++ s) = modHead (fun u => w ++ u) (splitBars s) := by
  induction w with
  | nil =>
    rw [List.nil_append]
    cases hsp : splitBars s <;> simp [modHead]
  | cons c w' ih =>
    rw [List.cons_append, splitBars_cons_ne c (hw c (by simp)),
      ih (fun c hmem => hw c (List.mem_cons_of_mem _ hmem)), modHead_modHead]
    rfl

theorem splitBars_append_right (s : List Char) : ∀ (w : List Char),
    (∀ c ∈ w, c ≠ '|') →
    splitBars (s ++ w) = modLast (fun u => u ++ w) (splitBars s) := by
  induction s using splitBars.induct with
  | case1 =>
    intro w hw
    rw [List.nil_append, splitBars_noBar w hw]
    rfl
  | case2 c =>
    intro w hw
    cases w with
    | nil => simp [splitBars, modLast]
    | cons d w' =>
      rw [List.singleton_append]
      rw [show splitBars (c :: d :: w') =
          modHead (fun u => c :: u) (splitBars (d :: w')) from by
        simp only [splitBars]
        rw [if_neg (by rintro ⟨_, h2⟩; exact hw d (by simp) h2)]]
      rw [splitBars_noBar (d :: w') hw]
      simp [splitBars, modHead, modLast]
  | case3 c1 c2 t h ih =>
    intro w hw
    rw [show (c1 :: c2 :: t) ++ w = c1 :: c2 :: (t ++ w) from rfl]
    simp only [splitBars, if_pos h]
    rw [ih w hw, ← modLast_cons _ [] _ (splitBars_ne_nil t)]
  | case4 c1 c2 t h ih =>
    intro w hw
    rw [show (c1 :: c2 :: t) ++ w = c1 :: c2 :: (t ++ w) from rfl]
    simp only [splitBars]
    rw [if_neg h, if_neg h]
    rw [show c2 :: (t ++ w) = (c2 :: t) ++ w from rfl]
    rw [ih w hw, modHead_modLast (fun u => c1 :: u) (fun u => u ++ w)
      (splitBars (c2 :: t)) (fun a => rfl)]

theorem dropWhile_sat_append (p : Char → Bool) (w x : Str)
    (hw : ∀ c ∈ w, p c = true) : (w ++ x).dropWhile p = x.dropWhile p := by
  induction w with
  | nil => rfl
  | cons c w' ih =>
    rw [List.cons_append, List.dropWhile_cons, if_pos (hw c (by simp))]
    exact ih (fun c hmem => hw c (List.mem_cons_of_mem _ hmem))

theorem trim_space_append (w x : Str) (hw : ∀ c ∈ w, isSpace c = true) :
    trim (w ++ x) = trim x := by
  unfold trim ltrim
  rw [dropWhile_sat_append isSpace w x hw]

theorem rtrim_append_space (x w : Str) (hw : ∀ c ∈ w, isSpace c = true) :
    rtrim (x ++ w) = rtrim x := by
  unfold rtrim
  rw [List.reverse_append, dropWhile_sat_append isSpace w.reverse x.reverse
    (fun c hmem => hw c (List.mem_reverse.mp hmem))]

theorem trim_append_space (x : Str) (w : Str) (hw : ∀ c ∈ w, isSpace c = true) :
    trim (x ++ w) = trim x := by
  induction x with
  | nil =>
    rw [List.nil_append]
    show trim w = trim []
    unfold trim ltrim
    rw [List.dropWhile_eq_nil_iff.mpr (fun c hmem => hw c hmem)]
    rfl
  | cons c x' ih =>
    by_cases hc : isSpace c = true
    · rw [List.cons_append]
      show trim (c :: (x' ++ w)) = trim (c :: x')
      unfold trim ltrim
      rw [List.dropWhile_cons, if_pos hc, List.dropWhile_cons, if_pos hc]
      exact ih
    · have h1 : ltrim (c :: (x' ++ w)) = c :: (x' ++ w) := by
        unfold ltrim
        rw [List.dropWhile_cons, if_neg hc]
      have h2 : ltrim (c :: x') = c :: x' := by
        unfold ltrim
        rw [List.dropWhile_cons, if_neg hc]
      rw [List.cons_append]
      show trim (c :: (x' ++ w)) = trim (c :: x')
      unfold trim
      rw [h1, h2]
      exact rtrim_append_space (c :: x') w hw

theorem exists_trim_decomp (s : Str) :
    ∃ w1 w2, (∀ c ∈ w1, isSpace c = true) ∧ (∀ c ∈ w2, isSpace c = true) ∧
      s = w1 ++ (trim s ++ w2) := by
  refine ⟨s.takeWhile isSpace, ((ltrim s).reverse.takeWhile isSpace).reverse,
    fun c h => List.mem_takeWhile_imp h,
    fun c h => List.mem_takeWhile_imp (List.mem_reverse.mp h), ?_⟩
  have h2 : ltrim s = trim s ++ ((ltrim s).reverse.takeWhile isSpace).reverse := by
    calc ltrim s = (ltrim s).reverse.reverse := by rw [List.reverse_reverse]
      _ = ((ltrim s).reverse.takeWhile isSpace ++
            (ltrim s).reverse.dropWhile isSpace).reverse := by
          rw [List.takeWhile_append_dropWhile isSpace (ltrim s).reverse]
      _ = ((ltrim s).reverse.dropWhile isSpace).reverse ++
            ((ltrim s).reverse.takeWhile isSpace).reverse := by
          rw [List.reverse_append]
      _ = trim s ++ ((ltrim s).reverse.takeWhile isSpace).reverse := rfl
  calc s = s.takeWhile isSpace ++ s.dropWhile isSpace := by
        rw [List.takeWhile_append_dropWhile isSpace s]
    _ = s.takeWhile isSpace ++ ltrim s := rfl
    _ = s.takeWhile isSpace ++ (trim s ++ _) := by rw [← h2]

theorem space_ne_bar (c : Char) (h : isSpace c = true) : c ≠ '|' := by
  intro hc
  subst hc
  exact absurd h (by decide)

theorem map_trim_modHead (w : Str) (hw : ∀ c ∈ w, isSpace c = true)
    (l : List Str) : (modHead (fun u => w ++ u) l).map trim = l.map trim := by
  cases l with
  | nil => rfl
  | cons a l' => simp [modHead, trim_space_append w a hw]

theorem map_trim_modLast (w : Str) (hw : ∀ c ∈ w, isSpace c = true)
    (l : List Str) : (modLast (fun u => u ++ w) l).map trim = l.map trim := by
  induction l with
  | nil => rfl
  | cons a l' ih =>
    cases l' with
    | nil => simp [modLast, trim_append_space a w hw]
    | cons b l'' =>
      rw [modLast_cons _ _ _ (by simp)]
      simp only [List.map_cons]
      rw [show (modLast (fun u => u ++ w) (b :: l'')).map trim =
        ((b :: l'').map trim) from ih]
      simp

theorem map_trim_splitBars_trim (s : Str) :
    (splitBars (trim s)).map trim = (splitBars s).map trim := by
  obtain ⟨w1, w2, h1, h2, hs⟩ := exists_trim_decomp s
  conv_rhs => rw [hs]
  rw [splitBars_append_left w1 _ (fun c hmem => space_ne_bar c (h1 c hmem)),
    splitBars_append_right (trim s) w2 (fun c hmem => space_ne_bar c (h2 c hmem)),
    map_trim_modHead w1 h1, map_trim_modLast w2 h2]

theorem containsBars_cons_ne (c : Char) (hc : c ≠ '|') (t : List Char) :
    containsBars (c :: t) = containsBars t := by
  cases t with
  | nil => rfl
  | cons c2 t' =>
    simp only [containsBars]
    rw [show (c == '|') = false from by simpa using hc]
    rfl

theorem containsBars_noBar (w : List Char) (hw : ∀ c ∈ w, c ≠ '|') :
    containsBars w = false := by
  induction w with
  | nil => rfl
  | cons c w' ih =>
    rw [containsBars_cons_ne c (hw c (by simp))]
    exact ih (fun c hmem => hw c (List.mem_cons_of_mem _ hmem))

theorem containsBars_append_left (w x : List Char) (hw : ∀ c ∈ w, c ≠ '|') :
    containsBars (w ++ x) = containsBars x := by
  induction w with
  | nil => rfl
  | cons c w' ih =>
    rw [List.cons_append, containsBars_cons_ne c (hw c (by simp))]
    exact ih (fun c hmem => hw c (List.mem_cons_of_mem _ hmem))

theorem containsBars_append_right (x w : List Char) (hw : ∀ c ∈ w, c ≠ '|') :
    containsBars (x ++ w) = containsBars x := by
  induction x with
  | nil =>
    rw [List.nil_append, containsBars_noBar w hw]
    rfl
  | cons c x' ih =>
    cases x' with
    | nil =>
      cases w with
      | nil => rfl
      | cons d w' =>
        rw [List.singleton_append]
        simp only [containsBars]
        rw [show (d == '|') = false from by
            simpa using hw d (by simp),
          containsBars_noBar (d :: w') hw]
        simp
    | cons e x'' =>
      rw [show (c :: e :: x'') ++ w = c :: e :: (x'' ++ w) from rfl]
      simp only [containsBars]
      rw [show (e :: x'') ++ w = e :: (x'' ++ w) from rfl] at ih
      rw [ih]

theorem subWsAux_true_eq (t : Str) :
    subWsAux true t = subWsAux false (t.dropWhile isSpace) := by
  induction t with
  | nil => rfl
  | cons d t' ih =>
    by_cases hd : isSpace d = true
    · rw [show subWsAux true (d :: t') = subWsAux true t' from by simp [subWsAux, hd]]
      rw [ih, List.dropWhile_cons, if_pos hd]
    · rw [List.dropWhile_cons, if_neg hd]
      simp [subWsAux, hd]

theorem subWs_eq_collapseRuns (t : Str) : subWsUnderscore t = collapseRuns t := by
  induction t using collapseRuns.induct with
  | case1 => simp [subWsUnderscore, subWsAux, collapseRuns]
  | case2 c t h ih =>
    show subWsAux false (c :: t) = collapseRuns (c :: t)
    rw [show subWsAux false (c :: t) = '_' :: subWsAux true t from by
      simp [subWsAux, h]]
    rw [subWsAux_true_eq]
    rw [show collapseRuns (c :: t) = '_' :: collapseRuns (t.dropWhile isSpace) from by
      rw [collapseRuns]
      rw [if_pos h]]
    rw [show subWsAux false (t.dropWhile isSpace) =
      subWsUnderscore (t.dropWhile isSpace) from rfl, ih]
  | case3 c t h ih =>
    show subWsAux false (c :: t) = collapseRuns (c :: t)
    rw [show subWsAux false (c :: t) = c :: subWsAux false t from by
      simp [subWsAux, h]]
    rw [show collapseRuns (c :: t) = c :: collapseRuns t from by
      rw [collapseRuns]
      rw [if_neg h]]
    rw [show subWsAux false t = subWsUnderscore t from rfl, ih]

/-- Claim C3 as stated is false: the source regex `[^\w\s-]` keeps
hyphens, so `clean_uri_string` maps the input `a-b` to `a-b`, while the
cleaning pipeline described by the claim (strip everything that is not a
letter, digit, underscore, or whitespace) would map it to `ab`. -/
theorem c3_counterexample :
    clean_uri_string (some "a-b".data) = some "a-b".data ∧
    cleanForUriClaim (some "a-b".data) = some "ab".data ∧
    clean_uri_string (some "a-b".data) ≠ cleanForUriClaim (some "a-b".data) := by
  have h2 : cleanForUriClaim (some "a-b".data) = some "ab".data := by
    have hu : cleanForUriClaim (some "a-b".data) =
        some (pquote (collapseRuns (trim ("a-b".data.filter keepCharClaim)))) := rfl
    rw [hu, ← subWs_eq_collapseRuns]
    decide
  refine ⟨by decide, h2, ?_⟩
  rw [h2]
  decide

/-- Claim C3 amended: for every non-empty input, `clean_uri_string`
strips every character that is not a letter, digit, underscore, hyphen,
or whitespace, replaces each whitespace run of the stripped-and-trimmed
result with a single underscore, then percent-encodes; missing or empty
input yields none. -/
theorem c3_clean_uri_amended (v : Option Str) :
    clean_uri_string v = cleanForUriAmended v := by
  cases v with
  | none => rfl
  | some s =>
    have hfil : s.filter keepChar = s.filter keepCharAmended := by
      refine List.filter_congr (fun c _ => ?_)
      simp only [keepChar, keepCharAmended, isWordChar, Char.isAlphanum, isSpace]
      cases c.isAlpha <;> cases c.isDigit <;> cases c == '_' <;>
        cases c.isWhitespace <;> cases c == '-' <;> rfl
    simp only [clean_uri_string, cleanForUriAmended, hfil, subWs_eq_collapseRuns]

theorem replaceChar_append (pat : Char) (rep : Str) (x y : Str) :
    replaceChar pat rep (x ++ y) = replaceChar pat rep x ++ replaceChar pat rep y := by
  simp [replaceChar]

theorem replace_chain_eq (s : Str) :
    replaceChar '\r' ['\\', 'r']
      (replaceChar '\n' ['\\', 'n'] (replaceChar '"' ['\\', '"'] s)) =
    s.flatMap escChar := by
  induction s with
  | nil => rfl
  | cons c t ih =>
    have hc : replaceChar '"' ['\\', '"'] (c :: t) =
        (if c = '"' then ['\\', '"'] else [c]) ++ replaceChar '"' ['\\', '"'] t := by
      simp [replaceChar]
    rw [hc, replaceChar_append, replaceChar_append, ih]
    rw [show (c :: t).flatMap escChar = escChar c ++ t.flatMap escChar from by simp]
    congr 1
    by_cases h1 : c = '"'
    · subst h1; rfl
    · by_cases h2 : c = '\n'
      · subst h2; simp [escChar, replaceChar]
      · by_cases h3 : c = '\r'
        · subst h3; simp [escChar, replaceChar]
        · simp [escChar, replaceChar, h1, h2, h3]

theorem escChar_no_ctl (a : Char) : '\n' ∉ escChar a ∧ '\r' ∉ escChar a := by
  by_cases h1 : a = '"'
  · subst h1; exact ⟨by decide, by decide⟩
  · by_cases h2 : a = '\n'
    · subst h2; exact ⟨by decide, by decide⟩
    · by_cases h3 : a = '\r'
      · subst h3; exact ⟨by decide, by decide⟩
      · simp [escChar, h1, h2, h3]
        exact ⟨fun h => h2 h.symm, fun h => h3 h.symm⟩

theorem qe_flatMap (s : Str) : ∀ prev : Char, qeAux prev (s.flatMap escChar) = true := by
  induction s with
  | nil => intro prev; rfl
  | cons c t ih =>
    intro prev
    rw [show (c :: t).flatMap escChar = escChar c ++ t.flatMap escChar from by simp]
    by_cases h1 : c = '"'
    · subst h1
      show qeAux prev ('\\' :: '"' :: t.flatMap escChar) = true
      simp only [qeAux]
      rw [ih]
      simp
    · by_cases h2 : c = '\n'
      · subst h2
        show qeAux prev ('\\' :: 'n' :: t.flatMap escChar) = true
        simp only [qeAux]
        rw [ih]
        simp
      · by_cases h3 : c = '\r'
        · subst h3
          show qeAux prev ('\\' :: 'r' :: t.flatMap escChar) = true
          simp only [qeAux]
          rw [ih]
          simp
        · rw [show escChar c = [c] from by simp [escChar, h1, h2, h3]]
          show qeAux prev (c :: t.flatMap escChar) = true
          simp only [qeAux]
          rw [ih]
          have hb : (c != '"') = true := by simpa using h1
          simp [hb]

theorem trim_nil_space (s : Str) (h : trim s = []) : ∀ c ∈ s, isSpace c = true := by
  obtain ⟨w1, w2, h1, h2, hs⟩ := exists_trim_decomp s
  rw [h] at hs
  intro c hc
  rw [hs] at hc
  simp only [List.nil_append, List.mem_append] at hc
  rcases hc with hc | hc
  exacts [h1 c hc, h2 c hc]

theorem containsBars_trim (s : Str) : containsBars (trim s) = containsBars s := by
  obtain ⟨w1, w2, h1, h2, hs⟩ := exists_trim_decomp s
  conv_rhs => rw [hs]
  rw [containsBars_append_left w1 _ (fun c hm => space_ne_bar c (h1 c hm)),
    containsBars_append_right (trim s) w2 (fun c hm => space_ne_bar c (h2 c hm))]

/-- Claim C2: `parse_delimited_field` splits values containing the
two-character delimiter on every occurrence of it, trims each segment,
drops segments that are empty after trimming and preserves order; a
non-empty value without the delimiter yields its single trimmed value;
missing, empty, or whitespace-only input yields the empty sequence. -/
theorem c2_parse_delimited_matches_spec (v : Option Str) :
    parse_delimited_field v = parseDelimitedSpec v := by
  cases v with
  | none => rfl
  | some s =>
    by_cases hts : trim s = []
    · have hall : ∀ c ∈ s, isSpace c = true := trim_nil_space s hts
      have hnb : containsBars s = false :=
        containsBars_noBar s (fun c hm => space_ne_bar c (hall c hm))
      simp [parse_delimited_field, parseDelimitedSpec, hts, hnb]
    · have hs : ¬(s = [] ∨ trim s = []) := by
        rintro (rfl | h)
        · exact hts rfl
        · exact hts h
      by_cases hb : containsBars s = true
      · have hbt : containsBars (trim s) = true := by
          rw [containsBars_trim]; exact hb
        simp only [parse_delimited_field, parseDelimitedSpec, if_neg hs, hbt, hb,
          if_pos, if_true]
        rw [map_trim_splitBars_trim, List.filter_filter]
        simp
      · have hbf : containsBars (trim s) = false := by
          rw [containsBars_trim]; exact Bool.not_eq_true _ ▸ eq_false_of_ne_true hb
        have hbf2 : containsBars s = false := eq_false_of_ne_true hb
        have hsne : ¬s = [] := fun h => hts (by rw [h]; rfl)
        simp [parse_delimited_field, parseDelimitedSpec, if_neg hs, hbf, hbf2,
          hts, hsne]

theorem no_nl_flatMap (s : Str) : '\n' ∉ s.flatMap escChar := by
  intro hmem
  obtain ⟨a, _, hx⟩ := List.mem_flatMap.mp hmem
  exact (escChar_no_ctl a).1 hx

theorem no_cr_flatMap (s : Str) : '\r' ∉ s.flatMap escChar := by
  intro hmem
  obtain ⟨a, _, hx⟩ := List.mem_flatMap.mp hmem
  exact (escChar_no_ctl a).2 hx

theorem quotesEscaped_flatMap (s : Str) : quotesEscaped (s.flatMap escChar) = true := by
  cases hfm : s.flatMap escChar with
  | nil => rfl
  | cons h t' =>
    have hq := qe_flatMap s 'a'
    rw [hfm] at hq
    simp only [qeAux] at hq
    rw [show ('a' == '\\') = false from by decide] at hq
    simp only [Bool.or_false, Bool.and_eq_true] at hq
    simp only [quotesEscaped, Bool.and_eq_true]
    exact hq

/-- Claim C10: for every non-empty input string `clean_literal_string`
returns a string with no literal newline and no literal carriage return
in which every double quote is immediately preceded by a backslash;
missing or empty input yields none. -/
theorem c10_clean_literal_safe (s : Str) (h : s ≠ []) :
    clean_literal_string (some s) = some (s.flatMap escChar) ∧
    '\n' ∉ s.flatMap escChar ∧
    '\r' ∉ s.flatMap escChar ∧
    quotesEscaped (s.flatMap escChar) = true ∧
    clean_literal_string none = none ∧
    clean_literal_string (some []) = none := by
  refine ⟨?_, no_nl_flatMap s, no_cr_flatMap s, quotesEscaped_flatMap s, rfl, rfl⟩
  simp only [clean_literal_string, if_neg h]
  rw [replace_chain_eq]

/-- Witness for claim C10 at the concrete input consisting of a double
quote followed by a newline. -/
theorem c10_witness :
    clean_literal_string (some ['"', '\n']) = some (['"', '\n'].flatMap escChar) ∧
    '\n' ∉ (['"', '\n'] : Str).flatMap escChar ∧
    '\r' ∉ (['"', '\n'] : Str).flatMap escChar ∧
    quotesEscaped ((['"', '\n'] : Str).flatMap escChar) = true ∧
    clean_literal_string none = none ∧
    clean_literal_string (some []) = none :=
  c10_clean_literal_safe ['"', '\n'] (by decide)

/-- Claim C6 as stated is false: `datetime.strptime` with format
`%Y-%m-%d` also accepts unpadded one-digit months and days, so
`format_date` returns `2020-3-5` unchanged while the claim's strict
`YYYY-MM-DD` reading demands none for it. -/
theorem c6_counterexample :
    format_date (some "2020-3-5".data) = some "2020-3-5".data ∧
    formatDateClaim (some "2020-3-5".data) = none ∧
    format_date (some "2020-3-5".data) ≠ formatDateClaim (some "2020-3-5".data) := by
  refine ⟨by decide, by decide, by decide⟩

theorem daysInMonth_le_31 (y m : Nat) : daysInMonth y m ≤ 31 := by
  unfold daysInMonth
  split
  · split <;> omega
  · split <;> omega

theorem parseMonth_eq_some (l : Str) (m : Nat) (r : Str)
    (h : parseMonth l = some (m, r)) :
    (∃ a, l = a :: '-' :: r ∧ a.isDigit = true ∧ m = dv a ∧ 1 ≤ m) ∨
    (∃ a b, l = a :: b :: '-' :: r ∧ a.isDigit = true ∧ b.isDigit = true ∧
      m = 10 * dv a + dv b ∧ 1 ≤ m ∧ m ≤ 12) := by
  rcases l with _ | ⟨a, _ | ⟨b, rest⟩⟩
  · exact absurd h (by simp [parseMonth])
  · exact absurd h (by simp [parseMonth])
  · simp only [parseMonth] at h
    by_cases ha : a.isDigit = true
    · rw [if_pos ha] at h
      by_cases hb : b.isDigit = true
      · rw [if_pos hb] at h
        split at h
        · rename_i rest2
          split at h
          · rename_i hm
            obtain ⟨hm1, hr⟩ : 10 * dv a + dv b = m ∧ rest2 = r := by
              have hinj := Option.some.inj h
              exact ⟨congrArg Prod.fst hinj, congrArg Prod.snd hinj⟩
            subst hm1
            subst hr
            exact Or.inr ⟨a, b, rfl, ha, hb, rfl, hm.1, hm.2⟩
          · exact absurd h (by simp)
        · exact absurd h (by simp)
      · rw [if_neg hb] at h
        by_cases hdash : b = '-'
        · subst hdash
          rw [if_pos rfl] at h
          by_cases h1 : 1 ≤ dv a
          · rw [if_pos h1] at h
            obtain ⟨hm1, hr⟩ : dv a = m ∧ rest = r := by
              have hinj := Option.some.inj h
              exact ⟨congrArg Prod.fst hinj, congrArg Prod.snd hinj⟩
            subst hm1
            subst hr
            exact Or.inl ⟨a, rfl, ha, rfl, h1⟩
          · rw [if_neg h1] at h
            exact absurd h (by simp)
        · rw [if_neg hdash] at h
          exact absurd h (by simp)
    · rw [if_neg ha] at h
      exact absurd h (by simp)

theorem parseDay_eq_some (l : Str) (d : Nat) (h : parseDay l = some d) :
    (∃ g, l = [g] ∧ g.isDigit = true ∧ d = dv g ∧ 1 ≤ d) ∨
    (∃ g k, l = [g, k] ∧ g.isDigit = true ∧ k.isDigit = true ∧
      d = 10 * dv g + dv k ∧ 1 ≤ d ∧ d ≤ 31) := by
  rcases l with _ | ⟨g, _ | ⟨k, _ | ⟨x, t⟩⟩⟩
  · exact absurd h (by simp [parseDay])
  · simp only [parseDay] at h
    split at h
    · rename_i hc
      have hd := Option.some.inj h
      subst hd
      exact Or.inl ⟨g, rfl, hc.1, rfl, hc.2⟩
    · exact absurd h (by simp)
  · simp only [parseDay] at h
    split at h
    · rename_i hc
      have hd := Option.some.inj h
      subst hd
      exact Or.inr ⟨g, k, rfl, hc.1, hc.2.1, rfl, hc.2.2.1, hc.2.2.2⟩
    · exact absurd h (by simp)
  · exact absurd h (by simp [parseDay])

theorem parseMonth_one (a : Char) (r : Str) (ha : a.isDigit = true)
    (h1 : 1 ≤ dv a) : parseMonth (a :: '-' :: r) = some (dv a, r) := by
  simp only [parseMonth, if_pos ha]
  norm_num
  simp [h1]

theorem parseMonth_two (a b : Char) (r : Str) (ha : a.isDigit = true)
    (hb : b.isDigit = true) (hm : 1 ≤ 10 * dv a + dv b ∧ 10 * dv a + dv b ≤ 12) :
    parseMonth (a :: b :: '-' :: r) = some (10 * dv a + dv b, r) := by
  simp only [parseMonth, if_pos ha, if_pos hb]
  rw [if_pos hm]

theorem parseDay_one (g : Char) (hg : g.isDigit = true) (h1 : 1 ≤ dv g) :
    parseDay [g] = some (dv g) := by
  simp only [parseDay]
  rw [if_pos ⟨hg, h1⟩]

theorem parseDay_two (g k : Char) (hg : g.isDigit = true) (hk : k.isDigit = true)
    (hd : 1 ≤ 10 * dv g + dv k ∧ 10 * dv g + dv k ≤ 31) :
    parseDay [g, k] = some (10 * dv g + dv k) := by
  simp only [parseDay]
  rw [if_pos ⟨hg, hk, hd.1, hd.2⟩]

theorem natVal_one (g : Char) : natVal [g] = dv g := by
  simp [natVal]

theorem natVal_two (g k : Char) : natVal [g, k] = 10 * dv g + dv k := by
  simp [natVal, List.foldl]

theorem natVal_four (a b c d : Char) : natVal [a, b, c, d] = y4 a b c d := by
  simp [natVal, List.foldl, y4]
  ring

theorem dv_le_9 (c : Char) (hc : c.isDigit = true) : dv c ≤ 9 := by
  simp only [Char.isDigit, Bool.and_eq_true, decide_eq_true_eq] at hc
  obtain ⟨h1, h2⟩ := hc
  have h3 : c.val.toNat ≤ 57 := h2
  unfold dv
  unfold Char.toNat
  omega

theorem strptime_eq_some (s : Str) (y m d : Nat)
    (h : strptimeYmd s = some (y, m, d)) :
    ∃ c1 c2 c3 c4 rest, s = c1 :: c2 :: c3 :: c4 :: '-' :: rest ∧
      c1.isDigit = true ∧ c2.isDigit = true ∧ c3.isDigit = true ∧
      c4.isDigit = true ∧ y = y4 c1 c2 c3 c4 ∧
      ∃ rest2, parseMonth rest = some (m, rest2) ∧ parseDay rest2 = some d := by
  rcases s with _ | ⟨c1, _ | ⟨c2, _ | ⟨c3, _ | ⟨c4, _ | ⟨c5, rest⟩⟩⟩⟩⟩
  · exact absurd h (by simp [strptimeYmd])
  · exact absurd h (by simp [strptimeYmd])
  · exact absurd h (by simp [strptimeYmd])
  · exact absurd h (by simp [strptimeYmd])
  · exact absurd h (by simp [strptimeYmd])
  · simp only [strptimeYmd] at h
    split at h
    · rename_i hcond
      obtain ⟨h1, h2, h3, h4, h5⟩ := hcond
      subst h5
      split at h
      · rename_i m' rest2 hpm
        split at h
        · rename_i d' hpd
          obtain ⟨hy, hm, hd⟩ : y4 c1 c2 c3 c4 = y ∧ m' = m ∧ d' = d := by
            have hinj := Option.some.inj h
            refine ⟨congrArg Prod.fst hinj, ?_, ?_⟩
            · exact congrArg (fun p => p.2.1) hinj
            · exact congrArg (fun p => p.2.2) hinj
          subst hm
          subst hd
          exact ⟨c1, c2, c3, c4, rest, rfl, h1, h2, h3, h4, hy.symm,
            rest2, hpm, hpd⟩
        · exact absurd h (by simp)
      · exact absurd h (by simp)
    · exact absurd h (by simp)

theorem format_date_cases (s : Str) :
    format_date (some s) = some s ∨ format_date (some s) = none := by
  by_cases hnil : s = []
  · subst hnil; exact Or.inr rfl
  · simp only [format_date, if_neg hnil]
    cases hsp : strptimeYmd s with
    | none => exact Or.inr rfl
    | some ymd =>
      obtain ⟨y, m, d⟩ := ymd
      by_cases hv : 1 ≤ y ∧ d ≤ daysInMonth y m
      · left; simp [hv]
      · right; simp [hv]

theorem format_date_some_flex (s : Str) (h : format_date (some s) = some s) :
    FlexYmd s := by
  by_cases hnil : s = []
  · rw [hnil] at h
    exact absurd h (by simp [format_date])
  · simp only [format_date, if_neg hnil] at h
    split at h
    · rename_i y m d hsp
      split at h
      · rename_i hv
        obtain ⟨c1, c2, c3, c4, rest, hs, h1, h2, h3, h4, hy, rest2, hpm, hpd⟩ :=
          strptime_eq_some s y m d hsp
        subst hy
        rcases parseMonth_eq_some rest m rest2 hpm with
          ⟨a, hrest, ha, hma, hm1⟩ | ⟨a, b, hrest, ha, hb, hmab, hm1, hm2⟩
        · rcases parseDay_eq_some rest2 d hpd with
            ⟨g, hr2, hg, hdg, hd1⟩ | ⟨g, k, hr2, hg, hk, hdgk, hd1, hd31⟩
          · refine ⟨[c1, c2, c3, c4], [a], [g], ?_, ?_, ?_, ?_, rfl,
              Or.inl rfl, Or.inl rfl, ?_, ?_, ?_, ?_, ?_⟩
            · rw [hs, hrest, hr2]; rfl
            · intro c hc; simp at hc
              rcases hc with rfl | rfl | rfl | rfl
              exacts [h1, h2, h3, h4]
            · intro c hc; simp at hc; subst hc; exact ha
            · intro c hc; simp at hc; subst hc; exact hg
            · rw [natVal_four]; exact hv.1
            · rw [natVal_one, ← hma]; exact hm1
            · rw [natVal_one, ← hma]
              have := dv_le_9 a ha
              omega
            · rw [natVal_one, ← hdg]; exact hd1
            · rw [natVal_one, natVal_one, natVal_four, ← hma, ← hdg]
              exact hv.2
          · refine ⟨[c1, c2, c3, c4], [a], [g, k], ?_, ?_, ?_, ?_, rfl,
              Or.inl rfl, Or.inr rfl, ?_, ?_, ?_, ?_, ?_⟩
            · rw [hs, hrest, hr2]; rfl
            · intro c hc; simp at hc
              rcases hc with rfl | rfl | rfl | rfl
              exacts [h1, h2, h3, h4]
            · intro c hc; simp at hc; subst hc; exact ha
            · intro c hc; simp at hc
              rcases hc with rfl | rfl
              exacts [hg, hk]
            · rw [natVal_four]; exact hv.1
            · rw [natVal_one, ← hma]; exact hm1
            · rw [natVal_one, ← hma]
              have := dv_le_9 a ha
              omega
            · rw [natVal_two, ← hdgk]; exact hd1
            · rw [natVal_one, natVal_two, natVal_four, ← hma, ← hdgk]
              exact hv.2
        · rcases parseDay_eq_some rest2 d hpd with
            ⟨g, hr2, hg, hdg, hd1⟩ | ⟨g, k, hr2, hg, hk, hdgk, hd1, hd31⟩
          · refine ⟨[c1, c2, c3, c4], [a, b], [g], ?_, ?_, ?_, ?_, rfl,
              Or.inr rfl, Or.inl rfl, ?_, ?_, ?_, ?_, ?_⟩
            · rw [hs, hrest, hr2]; rfl
            · intro c hc; simp at hc
              rcases hc with rfl | rfl | rfl | rfl
              exacts [h1, h2, h3, h4]
            · intro c hc; simp at hc
              rcases hc with rfl | rfl
              exacts [ha, hb]
            · intro c hc; simp at hc; subst hc; exact hg
            · rw [natVal_four]; exact hv.1
            · rw [natVal_two, ← hmab]; exact hm1
            · rw [natVal_two, ← hmab]; exact hm2
            · rw [natVal_one, ← hdg]; exact hd1
            · rw [natVal_two, natVal_one, natVal_four, ← hmab, ← hdg]
              exact hv.2
          · refine ⟨[c1, c2, c3, c4], [a, b], [g, k], ?_, ?_, ?_, ?_, rfl,
              Or.inr rfl, Or.inr rfl, ?_, ?_, ?_, ?_, ?_⟩
            · rw [hs, hrest, hr2]; rfl
            · intro c hc; simp at hc
              rcases hc with rfl | rfl | rfl | rfl
              exacts [h1, h2, h3, h4]
            · intro c hc; simp at hc
              rcases hc with rfl | rfl
              exacts [ha, hb]
            · intro c hc; simp at hc
              rcases hc with rfl | rfl
              exacts [hg, hk]
            · rw [natVal_four]; exact hv.1
            · rw [natVal_two, ← hmab]; exact hm1
            · rw [natVal_two, ← hmab]; exact hm2
            · rw [natVal_two, ← hdgk]; exact hd1
            · rw [natVal_two, natVal_two, natVal_four, ← hmab, ← hdgk]
              exact hv.2
      · exact absurd h (by simp)
    · exact absurd h (by simp)

theorem list_len_four (l : Str) (h : l.length = 4) :
    ∃ a b c d, l = [a, b, c, d] := by
  rcases l with _ | ⟨a, _ | ⟨b, _ | ⟨c, _ | ⟨d, _ | ⟨e, t⟩⟩⟩⟩⟩ <;> simp at h
  exact ⟨a, b, c, d, rfl⟩

theorem flex_format_date (s : Str) (h : FlexYmd s) :
    format_date (some s) = some s := by
  obtain ⟨ys, ms, ds, hs, hys, hms, hds, hyl, hml, hdl, hy1, hm1, hm12, hd1, hdm⟩ := h
  obtain ⟨e1, e2, e3, e4, rfl⟩ := list_len_four ys hyl
  have he1 : e1.isDigit = true := hys e1 (by simp)
  have he2 : e2.isDigit = true := hys e2 (by simp)
  have he3 : e3.isDigit = true := hys e3 (by simp)
  have he4 : e4.isDigit = true := hys e4 (by simp)
  rw [natVal_four] at hy1 hdm
  subst hs
  have hpm : parseMonth (ms ++ '-' :: ds) = some (natVal ms, ds) := by
    rcases hml with hml | hml
    · obtain ⟨a, rfl⟩ := List.length_eq_one.mp hml
      have ha := hms a (by simp)
      rw [natVal_one] at hm1 ⊢
      exact parseMonth_one a ds ha hm1
    · obtain ⟨a, b, rfl⟩ := List.length_eq_two.mp hml
      have ha := hms a (by simp)
      have hb := hms b (by simp)
      rw [natVal_two] at hm1 hm12 ⊢
      exact parseMonth_two a b ds ha hb ⟨hm1, hm12⟩
  have hpd : parseDay ds = some (natVal ds) := by
    rcases hdl with hdl | hdl
    · obtain ⟨g, rfl⟩ := List.length_eq_one.mp hdl
      have hg := hds g (by simp)
      rw [natVal_one] at hd1 ⊢
      exact parseDay_one g hg hd1
    · obtain ⟨g, k, rfl⟩ := List.length_eq_two.mp hdl
      have hg := hds g (by simp)
      have hk := hds k (by simp)
      have h31 : natVal [g, k] ≤ 31 := le_trans hdm (daysInMonth_le_31 _ _)
      rw [natVal_two] at hd1 h31 ⊢
      exact parseDay_two g k hg hk ⟨hd1, h31⟩
  have hsp : strptimeYmd ([e1, e2, e3, e4] ++ '-' :: (ms ++ '-' :: ds)) =
      some (y4 e1 e2 e3 e4, natVal ms, natVal ds) := by
    show strptimeYmd (e1 :: e2 :: e3 :: e4 :: '-' :: (ms ++ '-' :: ds)) = _
    simp [strptimeYmd, he1, he2, he3, he4, hpm, hpd]
  simp only [format_date]
  rw [if_neg (by simp), hsp]
  simp [hy1, hdm]

/-- Claim C6 amended: `format_date` returns none for missing or empty
input; a non-empty value is returned unchanged exactly when it has the
shape four year digits, dash, one or two month digits, dash, one or two
day digits (zero-padding of month and day optional), the month is 1-12,
the day exists in that month, and the year is at least 1; every other
value yields none.  In particular `2020-03-15` is returned unchanged and
`15/03/2020` yields none. -/
theorem c6_format_date_amended (s : Str) :
    format_date none = none ∧ format_date (some []) = none ∧
    (format_date (some s) = some s ↔ FlexYmd s) ∧
    (format_date (some s) = none ↔ ¬ FlexYmd s) ∧
    format_date (some "2020-03-15".data) = some "2020-03-15".data ∧
    format_date (some "15/03/2020".data) = none := by
  refine ⟨rfl, rfl, ⟨format_date_some_flex s, flex_format_date s⟩, ?_, by decide,
    by decide⟩
  constructor
  · intro hn hf
    rw [flex_format_date s hf] at hn
    exact Option.noConfusion hn
  · intro hnf
    rcases format_date_cases s with hc | hc
    · exact absurd (format_date_some_flex s hc) hnf
    · exact hc

/-- Claim C5: a metric assertion is emitted iff the value is present,
non-empty, and its string form is not exactly `0.0`; integer-typed
metrics emit the float value truncated (`3.9` emits `3`), decimal-typed
metrics emit the raw value, and a value of `0` emits an assertion of
`0`.  The hypothesis restricts integer-typed values to ones CPython's
`int(float(...))` can convert, since the source would otherwise crash. -/
theorem c5_numeric_metrics (dt : DType) (v : Option Str)
    (hp : ∀ s, v = some s → dt = DType.integer → (truncFloatStr s).isSome = true) :
    ((∃ lit, emitMetricObj dt v = Except.ok (some lit)) ↔
      (∃ s, v = some s ∧ s ≠ [] ∧ s ≠ "0.0".data)) ∧
    emitMetricObj DType.integer (some "3.9".data) = Except.ok (some "3".data) ∧
    emitMetricObj DType.integer (some "0".data) = Except.ok (some "0".data) ∧
    emitMetricObj DType.decimal (some "0".data) = Except.ok (some "0".data) ∧
    (∀ s, s ≠ [] → s ≠ "0.0".data →
      emitMetricObj DType.decimal (some s) = Except.ok (some s)) := by
  refine ⟨?_, rfl, rfl, rfl, ?_⟩
  · constructor
    · rintro ⟨lit, hl⟩
      cases v with
      | none => exact absurd hl (by simp [emitMetricObj])
      | some s =>
        refine ⟨s, rfl, ?_⟩
        by_cases hg : s = [] ∨ s = "0.0".data
        · rw [show emitMetricObj dt (some s) = Except.ok none from by
            simp [emitMetricObj, hg]] at hl
          exact absurd (Except.ok.inj hl) (by simp)
        · exact not_or.mp hg
    · rintro ⟨s, rfl, h1, h2⟩
      have hg : ¬(s = [] ∨ s = "0.0".data) := by
        rintro (h | h)
        exacts [h1 h, h2 h]
      cases dt with
      | decimal => exact ⟨s, by simp [emitMetricObj, hg]⟩
      | integer =>
        have hs := hp s rfl rfl
        obtain ⟨n, hn⟩ := Option.isSome_iff_exists.mp hs
        refine ⟨intStr n, ?_⟩
        simp [emitMetricObj, hg, hn]
  · intro s h1 h2
    have hg : ¬(s = [] ∨ s = "0.0".data) := by
      rintro (h | h)
      exacts [h1 h, h2 h]
    simp [emitMetricObj, hg]

/-- Witness for claim C5 at the integer-typed value `7`. -/
theorem c5_witness :
    ((∃ lit, emitMetricObj DType.integer (some "7".data) = Except.ok (some lit)) ↔
      (∃ s, some "7".data = some s ∧ s ≠ [] ∧ s ≠ "0.0".data)) ∧
    emitMetricObj DType.integer (some "3.9".data) = Except.ok (some "3".data) ∧
    emitMetricObj DType.integer (some "0".data) = Except.ok (some "0".data) ∧
    emitMetricObj DType.decimal (some "0".data) = Except.ok (some "0".data) ∧
    (∀ s, s ≠ [] → s ≠ "0.0".data →
      emitMetricObj DType.decimal (some s) = Except.ok (some s)) :=
  c5_numeric_metrics DType.integer (some "7".data)
    (fun s hs _ => by cases hs; decide)

/-- Claim C7: the boolean flag assertion is emitted whenever the field
is present, with value `true` exactly when the lower-cased raw value is
`true` or `1` and `false` otherwise; an absent field emits nothing. -/
theorem c7_boolean_flag :
    emitTba none = none ∧
    (∀ s, emitTba (some s) =
      some (if lowerStr s = "true".data ∨ lowerStr s = "1".data then "true".data
        else "false".data)) ∧
    emitTba (some "True".data) = some "true".data ∧
    emitTba (some "maybe".data) = some "false".data := by
  refine ⟨rfl, ?_, by decide, by decide⟩
  intro s
  simp [emitTba]

/-- Claim C8 as stated is false: a limit of 0 is set, yet `if limit:`
treats it as falsy and the loader returns every row rather than at most
zero rows. -/
theorem c8_counterexample :
    (loadRows [rowA] (some 0)).length = 1 ∧
    ¬((loadRows [rowA] (some 0)).length ≤ 0) := by
  exact ⟨rfl, by decide⟩

/-- Claim C8 amended: when the limit is set and nonzero, the loader
returns the first `limit` rows of the source in order (at most `limit`
rows); a limit of zero is treated as unset and returns all rows. -/
theorem c8_loader_limit_amended (rows : List Row) (n : Nat) (h : n ≠ 0) :
    loadRows rows (some n) = rows.take n ∧
    (loadRows rows (some n)).length ≤ n := by
  constructor
  · simp [loadRows, h]
  · simp [loadRows, h, List.length_take]

/-- Witness for amended claim C8 at limit 1 over a two-row source. -/
theorem c8_witness :
    loadRows [rowA, rowB] (some 1) = [rowA, rowB].take 1 ∧
    (loadRows [rowA, rowB] (some 1)).length ≤ 1 :=
  c8_loader_limit_amended [rowA, rowB] 1 (by decide)

/-- Claim C4: a row whose identifier is missing (absent cell and empty
cell coincide as NaN after `read_csv`) contributes no segments at all to
the game phase, and removing it leaves every other row's output
unchanged. -/
theorem c4_missing_id_skipped (row : Row) (h : row.id = none) :
    gameBlock row = Except.ok [] ∧
    ∀ pre post : List Row,
      gameSection (pre ++ row :: post) = gameSection (pre ++ post) := by
  have hb : gameBlock row = Except.ok [] := by
    unfold gameBlock
    rw [h]
  refine ⟨hb, ?_⟩
  intro pre post
  induction pre with
  | nil =>
    show gameSection (row :: post) = gameSection post
    simp only [gameSection]
    rw [hb]
    cases hg : gameSection post with
    | error e => rfl
    | ok gs =>
      show Except.ok ([] ++ gs) = Except.ok gs
      rw [List.nil_append]
  | cons p pre' ih =>
    show gameSection (p :: (pre' ++ row :: post)) = gameSection (p :: (pre' ++ post))
    simp only [gameSection]
    rw [ih]

/-- Witness for claim C4: a row with no identifier next to a normal
row. -/
theorem c4_witness :
    gameBlock rowA = Except.ok [] ∧
    gameSection ([] ++ rowA :: [rowB]) = gameSection ([] ++ [rowB]) := by
  have h := c4_missing_id_skipped rowA rfl
  exact ⟨h.1, h.2 [] [rowB]⟩

theorem isPrefixOf_append_self (l t : List Char) : l.isPrefixOf (l ++ t) = true := by
  induction l with
  | nil => simp [List.isPrefixOf]
  | cons a l ih => simp [List.isPrefixOf, ih]

theorem refs_declared_cat (getF : Row → Option Str) (pre ty header : Str)
    (rows : List Row) (row : Row) (hrow : row ∈ rows) (u : Str)
    (hu : u ∈ refsOf getF pre row) :
    ∃ line ∈ catSection header pre ty (fieldNames getF rows),
      (u ++ " rdf:type".data).isPrefixOf line = true := by
  obtain ⟨n, hn, hc⟩ := List.mem_filterMap.mp hu
  obtain ⟨c, hcu, hcc⟩ := Option.map_eq_some'.mp hc
  have hmem : n ∈ fieldNames getF rows :=
    List.mem_dedup.mpr (List.mem_flatMap.mpr ⟨row, hrow, hn⟩)
  refine ⟨pre ++ c ++ " rdf:type ".data ++ ty ++ " ;".data, ?_, ?_⟩
  · apply List.mem_cons_of_mem
    refine List.mem_flatMap.mpr ⟨n, hmem, ?_⟩
    simp [entityBlock, hcu]
  · subst hcc
    rw [show (" rdf:type ".data : Str) = " rdf:type".data ++ [' '] from by decide]
    rw [show pre ++ c ++ (" rdf:type".data ++ [' ']) ++ ty ++ " ;".data =
        (pre ++ c ++ " rdf:type".data) ++ ([' '] ++ ty ++ " ;".data) from by
      simp [List.append_assoc]]
    exact isPrefixOf_append_self _ _

theorem refs_declared_esrb (rows : List Row) (row : Row) (hrow : row ∈ rows)
    (u : Str) (hu : u ∈ refsEsrb row) :
    ∃ line ∈ catSection "# Ratings ESRB".data ":esrb_".data
        "schema:GameRating".data (esrbSet rows),
      (u ++ " rdf:type".data).isPrefixOf line = true := by
  obtain ⟨n, hn, hc⟩ := List.mem_filterMap.mp hu
  obtain ⟨c, hcu, hcc⟩ := Option.map_eq_some'.mp hc
  have hmem : n ∈ esrbSet rows :=
    List.mem_dedup.mpr (List.mem_flatMap.mpr ⟨row, hrow, hn⟩)
  refine ⟨":esrb_".data ++ c ++ " rdf:type ".data ++
    "schema:GameRating".data ++ " ;".data, ?_, ?_⟩
  · apply List.mem_cons_of_mem
    refine List.mem_flatMap.mpr ⟨n, hmem, ?_⟩
    simp [entityBlock, hcu]
  · subst hcc
    rw [show (" rdf:type ".data : Str) = " rdf:type".data ++ [' '] from by decide]
    rw [show ":esrb_".data ++ c ++ (" rdf:type".data ++ [' ']) ++
        "schema:GameRating".data ++ " ;".data =
        (":esrb_".data ++ c ++ " rdf:type".data) ++
          ([' '] ++ "schema:GameRating".data ++ " ;".data) from by
      simp [List.append_assoc]]
    exact isPrefixOf_append_self _ _

/-- Claim C1: every entity reference a game block emits points at a
subject whose declaration block appears in the entity phase, and the
output is the preamble followed by the whole entity phase followed by
the whole game phase, so every declaration precedes every game block. -/
theorem c1_refs_declared_before_games (rows : List Row) (row : Row) (u : Str)
    (h1 : row ∈ rows) (h2 : u ∈ gameRefs row) :
    (∃ line ∈ entitySection rows, (u ++ " rdf:type".data).isPrefixOf line = true) ∧
    ∀ out, ttlLines rows = Except.ok out →
      ∃ gs, gameSection rows = Except.ok gs ∧
        out = preambleLines ++ entitySection rows ++
          ("# Videojuegos".data :: gs) := by
  constructor
  · unfold gameRefs at h2
    unfold entitySection
    rcases List.mem_append.mp h2 with h2 | h2
    · rcases List.mem_append.mp h2 with h2 | h2
      · rcases List.mem_append.mp h2 with h2 | h2
        · rcases List.mem_append.mp h2 with h2 | h2
          · obtain ⟨line, hl, hp⟩ := refs_declared_cat Row.platforms
              ":platform_".data "schema:VideoGamePlatform".data
              "# Plataformas".data rows row h1 u h2
            exact ⟨line, by
              refine List.mem_append.mpr (Or.inl ?_)
              refine List.mem_append.mpr (Or.inl ?_)
              refine List.mem_append.mpr (Or.inl ?_)
              exact List.mem_append.mpr (Or.inl hl), hp⟩
          · obtain ⟨line, hl, hp⟩ := refs_declared_cat Row.developers
              ":developer_".data "schema:Organization".data
              "# Desarrolladores".data rows row h1 u h2
            exact ⟨line, by
              refine List.mem_append.mpr (Or.inl ?_)
              refine List.mem_append.mpr (Or.inl ?_)
              refine List.mem_append.mpr (Or.inl ?_)
              exact List.mem_append.mpr (Or.inr hl), hp⟩
        · obtain ⟨line, hl, hp⟩ := refs_declared_cat Row.publishers
            ":publisher_".data "schema:Organization".data
            "# Editores".data rows row h1 u h2
          exact ⟨line, by
            refine List.mem_append.mpr (Or.inl ?_)
            refine List.mem_append.mpr (Or.inl ?_)
            exact List.mem_append.mpr (Or.inr hl), hp⟩
      · obtain ⟨line, hl, hp⟩ := refs_declared_cat Row.genres
          ":genre_".data "schema:Genre".data
          "# Géneros".data rows row h1 u h2
        exact ⟨line, by
          refine List.mem_append.mpr (Or.inl ?_)
          exact List.mem_append.mpr (Or.inr hl), hp⟩
    · obtain ⟨line, hl, hp⟩ := refs_declared_esrb rows row h1 u h2
      exact ⟨line, List.mem_append.mpr (Or.inr hl), hp⟩
  · intro out hout
    unfold ttlLines at hout
    cases hg : gameSection rows with
    | error e =>
      rw [hg] at hout
      exact absurd hout (by simp [Except.map])
    | ok gs =>
      rw [hg] at hout
      simp only [Except.map] at hout
      exact ⟨gs, rfl, (Except.ok.inj hout).symm⟩

/-- Witness for claim C1: a one-row dataset whose game block references
the PC platform subject. -/
theorem c1_witness :
    (∃ line ∈ entitySection [rowB],
      ((":platform_PC".data : Str) ++ " rdf:type".data).isPrefixOf line = true) ∧
    ∀ out, ttlLines [rowB] = Except.ok out →
      ∃ gs, gameSection [rowB] = Except.ok gs ∧
        out = preambleLines ++ entitySection [rowB] ++
          ("# Videojuegos".data :: gs) :=
  c1_refs_declared_before_games [rowB] rowB ":platform_PC".data
    (List.mem_singleton.mpr rfl) (by decide)

/-- Claim C9 as stated is false: the fixed preamble contains nine
prefix declarations, not seven. -/
theorem c9_counterexample :
    (preambleLines.filter
      (fun l => ("@prefix".data : Str).isPrefixOf l)).length = 9 ∧
    ¬((preambleLines.filter
      (fun l => ("@prefix".data : Str).isPrefixOf l)).length = 7) := by
  exact ⟨by decide, by decide⟩

/-- Claim C9 amended: every generated output begins with the fixed
preamble, which declares nine namespace prefixes, among them the rawg
and vgo prefixes used in emitted predicates. -/
theorem c9_preamble_amended (rows : List Row) (limit : Option Nat)
    (out : List Str) (h : generateTtl rows limit = Except.ok out) :
    (∃ rest, out = preambleLines ++ rest) ∧
    (preambleLines.filter
      (fun l => ("@prefix".data : Str).isPrefixOf l)).length = 9 ∧
    (∃ l ∈ preambleLines, ("@prefix rawg:".data : Str).isPrefixOf l = true) ∧
    (∃ l ∈ preambleLines, ("@prefix vgo:".data : Str).isPrefixOf l = true) := by
  refine ⟨?_, by decide, by decide, by decide⟩
  unfold generateTtl ttlLines at h
  cases hg : gameSection (loadRows rows limit) with
  | error e =>
    rw [hg] at h
    exact absurd h (by simp [Except.map])
  | ok gs =>
    rw [hg] at h
    simp only [Except.map] at h
    refine ⟨entitySection (loadRows rows limit) ++
      ("# Videojuegos".data :: gs), ?_⟩
    rw [← Except.ok.inj h]
    simp [List.append_assoc]

/-- Witness for amended claim C9: the empty dataset with no limit. -/
theorem c9_witness :
    (∃ rest, preambleLines ++ entitySection [] ++
        ("# Videojuegos".data :: ([] : List Str)) = preambleLines ++ rest) ∧
    (preambleLines.filter
      (fun l => ("@prefix".data : Str).isPrefixOf l)).length = 9 ∧
    (∃ l ∈ preambleLines, ("@prefix rawg:".data : Str).isPrefixOf l = true) ∧
    (∃ l ∈ preambleLines, ("@prefix vgo:".data : Str).isPrefixOf l = true) :=
  c9_preamble_amended [] none
    (preambleLines ++ entitySection [] ++ ("# Videojuegos".data :: [])) rfl
